import Mathlib

/-!
Shallow embedding of the MKV→MP4 remuxing script (`src/code.py`).

The script probes a media file with ffprobe (duration, audio/video codec),
builds an ffmpeg argument list (`build_ffmpeg_cmd`), supervises the ffmpeg
run while parsing its `-progress pipe:1` output into an updating percentage
(`remux_with_progress`), and mirrors ffmpeg's exit code.

Python floats are modelled as rationals (ℚ); Python exceptions raised inside
a modelled function are `Option.none` (or a dedicated error constructor).
-/

/-- Value of a list of decimal digit characters, most significant first
(models Python `int` on a digit string, and the integer/fraction parts of
`float`). -/
def digitsToNat (l : List Char) : Nat :=
  l.foldl (fun acc c => acc * 10 + (c.toNat - 48)) 0

/-- Models Python `float` on an unsigned mantissa: digit characters with at
most one decimal point and at least one digit.  (`inf`/`nan`, underscores and
non-ASCII digits, which never occur in the strings this script parses, are
not modelled and are rejected.) -/
def parseMant (l : List Char) : Option ℚ :=
  if l.any Char.isDigit ∧ (l.all fun c => c.isDigit || c == '.') ∧ l.count '.' ≤ 1 then
    some ((digitsToNat (l.takeWhile fun c => c != '.') : ℚ) +
      (digitsToNat ((l.dropWhile fun c => c != '.').drop 1) : ℚ) /
        (10 : ℚ) ^ ((l.dropWhile fun c => c != '.').drop 1).length)
  else none

/-- Exponent part of a Python float literal: optional sign, then digits. -/
def parseExp (l : List Char) : Option ℤ :=
  match l with
  | [] => none
  | c :: ds =>
    if c = '-' then
      if ds ≠ [] ∧ ds.all Char.isDigit then some (-(digitsToNat ds : ℤ)) else none
    else if c = '+' then
      if ds ≠ [] ∧ ds.all Char.isDigit then some (digitsToNat ds : ℤ) else none
    else if l.all Char.isDigit then some (digitsToNat l : ℤ)
    else none

/-- Unsigned Python float: mantissa with optional `e`/`E` exponent. -/
def parseUFloat (l : List Char) : Option ℚ :=
  match l.dropWhile fun c => c.isDigit || c == '.' with
  | [] => parseMant l
  | c :: es =>
    if c = 'e' ∨ c = 'E' then
      match parseMant (l.takeWhile fun c => c.isDigit || c == '.'), parseExp es with
      | some m, some e => some (m * (10 : ℚ) ^ e)
      | _, _ => none
    else none

/-- Python `float(...)` on a character list: optional leading sign, then an
unsigned float.  `none` models a raised `ValueError`. -/
def pyFloatCore (l : List Char) : Option ℚ :=
  match l with
  | [] => parseUFloat []
  | c :: rest =>
    if c = '-' then (parseUFloat rest).map fun q => -q
    else if c = '+' then parseUFloat rest
    else parseUFloat l

/-- Python `float(s)` (see `pyFloatCore`). -/
def pyFloat (s : String) : Option ℚ :=
  pyFloatCore s.data

/-- Python `str.strip()` on the underlying characters. -/
def stripChars (l : List Char) : List Char :=
  ((l.dropWhile Char.isWhitespace).reverse.dropWhile Char.isWhitespace).reverse

/-- Python `str.strip()`. -/
def pyStrip (s : String) : String :=
  String.mk (stripChars s.data)

/-- `get_duration` (code.py line 83): `float(subprocess.check_output(cmd, text=True).strip())`
applied to the raw ffprobe stdout.  `none` models the `ValueError` escaping
from `float` — the probe failure of the design. -/
def get_duration (raw : String) : Option ℚ :=
  pyFloat (pyStrip raw)

/-- Python `str.lower()` (ASCII case folding, which covers codec names). -/
def pyLower (s : String) : String :=
  String.mk (s.data.map Char.toLower)

/-- The `audio_args` local of `build_ffmpeg_cmd` (code.py line 123):
`["-c:a", "alac"] if acodec.lower() == "dts" else ["-c:a", "copy"]`. -/
def audio_args (acodec : String) : List String :=
  if pyLower acodec = "dts" then ["-c:a", "alac"] else ["-c:a", "copy"]

/-- The `tag_args` local of `build_ffmpeg_cmd` (code.py line 124):
`["-tag:v", "hvc1"] if vcodec.lower() in {"hevc", "h265"} else []`. -/
def tag_args (vcodec : String) : List String :=
  if pyLower vcodec = "hevc" ∨ pyLower vcodec = "h265" then ["-tag:v", "hvc1"] else []

/-- `build_ffmpeg_cmd` (code.py lines 104–136): the argv list passed to
subprocess. -/
def build_ffmpeg_cmd (src dst acodec vcodec : String) : List String :=
  ["ffmpeg", "-y", "-i", src, "-c:v", "copy"]
    ++ audio_args acodec
    ++ ["-movflags", "+faststart"]
    ++ tag_args vcodec
    ++ ["-progress", "pipe:1", "-nostats", dst]

/-- Index of the last occurrence of `c` in `l` (Python `str.rfind`, as an
`Option`). -/
def rfindIdx (c : Char) : List Char → Option Nat
  | [] => none
  | x :: xs =>
    match rfindIdx c xs with
    | some i => some (i + 1)
    | none => if x = c then some 0 else none

/-- `os.path.splitext` on a POSIX path (CPython's algorithm: split at the
last dot when it lies after the last slash and the basename has a non-dot
character before it; otherwise the extension is empty). -/
def splitext (p : String) : String × String :=
  let l := p.data
  let si : Int := match rfindIdx '/' l with | none => -1 | some i => (i : Int)
  let di : Int := match rfindIdx '.' l with | none => -1 | some i => (i : Int)
  if si < di then
    if ((l.drop (si + 1).toNat).take (di - si - 1).toNat).any (fun c => c != '.') then
      (String.mk (l.take di.toNat), String.mk (l.drop di.toNat))
    else (p, "")
  else (p, "")

/-- Drop `lit` from the front of `l`; `none` when `lit` is not a prefix of
`l`.  Building block of the regex-search model. -/
def dropLit : List Char → List Char → Option (List Char)
  | [], l => some l
  | _ :: _, [] => none
  | a :: as, b :: bs => if a = b then dropLit as bs else none

/-- Attempt a match of the pattern `lit(cls+)` anchored at the start of `l`,
returning the greedily captured `cls`-run (nonempty). -/
def captureAt (lit : List Char) (cls : Char → Bool) (l : List Char) : Option (List Char) :=
  match dropLit lit l with
  | none => none
  | some rest =>
    if (rest.takeWhile cls).isEmpty then none else some (rest.takeWhile cls)

/-- `re.search` for the pattern `lit(cls+)`: leftmost match, greedy capture.
Models `re_us = re.compile(r"out_time_ms=(\d+)")` and
`re_hms = re.compile(r"out_time=([\d:.]+)")` from code.py lines 167–168. -/
def searchCap (lit : List Char) (cls : Char → Bool) : List Char → Option (List Char)
  | [] => none
  | c :: rest =>
    match captureAt lit cls (c :: rest) with
    | some cap => some cap
    | none => searchCap lit cls rest

/-- The literal part of `re_us`. -/
def usLit : List Char := "out_time_ms=".data

/-- The literal part of `re_hms`. -/
def hmsLit : List Char := "out_time=".data

/-- The character class `[\d:.]` of `re_hms`. -/
def isHmsChar (c : Char) : Bool :=
  c.isDigit || c == ':' || c == '.'

/-- Python `str.split(":")`. -/
def splitOnColon : List Char → List (List Char)
  | [] => [[]]
  | x :: rest =>
    if x = ':' then [] :: splitOnColon rest
    else
      match splitOnColon rest with
      | [] => [[x]]
      | p :: ps => (x :: p) :: ps

/-- Code.py line 176: `h, m_, s = map(float, m.group(1).split(":"))` followed
by `h * 3600 + m_ * 60 + s`.  `none` models the `ValueError` raised when the
captured text does not split into exactly three float components. -/
def parseHMS (cap : List Char) : Option ℚ :=
  match splitOnColon cap with
  | [p1, p2, p3] =>
    match pyFloatCore p1, pyFloatCore p2, pyFloatCore p3 with
    | some h, some m, some s => some (h * 3600 + m * 60 + s)
    | _, _, _ => none
  | _ => none

/-- Outcome of feeding one line to the progress-parsing block of the loop
body (code.py lines 171–179). -/
inductive LineParse where
  /-- Neither regex matched: the `continue` branch. -/
  | noMatch : LineParse
  /-- `re_hms` matched but the capture is malformed: an uncaught
  `ValueError`. -/
  | malformed : LineParse
  /-- Parsed elapsed media time, in seconds (`done_seconds`). -/
  | progress (secs : ℚ) : LineParse
deriving DecidableEq

/-- Lines 171–179 of code.py: try `re_us` first (microseconds), fall back to
`re_hms` (`H:MM:SS.fraction`), otherwise `continue`. -/
def parseProgressLine (line : String) : LineParse :=
  match searchCap usLit Char.isDigit line.data with
  | some ds => .progress ((digitsToNat ds : ℚ) / 1000000)
  | none =>
    match searchCap hmsLit isHmsChar line.data with
    | some cap =>
      match parseHMS cap with
      | some secs => .progress secs
      | none => .malformed
    | none => .noMatch

/-- Code.py line 181: `pct = min(done_seconds / total_duration * 100, 100)`.
`none` models the `ZeroDivisionError` Python raises when `total_duration`
is zero. -/
def computePct (total done_seconds : ℚ) : Option ℚ :=
  if total = 0 then none else some (min (done_seconds / total * 100) 100)

/-- Python `int()` on a float: truncation toward zero. -/
def pyInt (q : ℚ) : Int :=
  if q < 0 then -⌊-q⌋ else ⌊q⌋

/-- One iteration of the `for line in proc.stdout` loop body (code.py lines
171–184), acting on `last_pct`.  Returns the new `last_pct` together with the
emitted percentage (if the truncated percent changed); `none` models an
uncaught exception (malformed `out_time` capture, or division by zero). -/
def stepLine (total : ℚ) (last : Int) (line : String) : Option (Int × Option ℚ) :=
  match parseProgressLine line with
  | .noMatch => some (last, none)
  | .malformed => none
  | .progress secs =>
    match computePct total secs with
    | none => none
    | some pct => if pyInt pct ≠ last then some (pyInt pct, some pct) else some (last, none)

/-- The whole progress loop over the engine's output lines, started with
`last_pct = -1` (code.py line 169).  Returns the emitted percentages in
order, and the final `last_pct` — `none` in the second component when the
loop died on an exception (emissions before the crash are kept). -/
def runLoop (total : ℚ) : Int → List String → List ℚ × Option Int
  | last, [] => ([], some last)
  | last, l :: ls =>
    match stepLine total last l with
    | none => ([], none)
    | some (last2, em) =>
      let r := runLoop total last2 ls
      (em.toList ++ r.1, r.2)

/-- The parsed elapsed times of a line sequence, in order (lines that are not
progress lines contribute nothing). -/
def secsOf (lines : List String) : List ℚ :=
  lines.filterMap fun l =>
    match parseProgressLine l with
    | .progress s => some s
    | _ => none

/-- The external world of one `remux_with_progress` call: what ffprobe
printed for the duration query, the two codec answers, ffmpeg's output lines
and its exit code. -/
structure Env where
  durationRaw : String
  acodec : String
  vcodec : String
  engineLines : List String
  exitCode : Int
deriving DecidableEq

/-- Observable events of a run, used to state ordering properties. -/
inductive Event where
  /-- The ffmpeg argv list was constructed. -/
  | planBuilt (cmd : List String) : Event
  /-- The ffmpeg child process was started with that argv list. -/
  | launched (cmd : List String) : Event
deriving DecidableEq

/-- How one `remux_with_progress` call ends. -/
inductive RemuxOutcome where
  /-- `ValueError` escaping from `get_duration` (unparsable probe output). -/
  | probeFailure : RemuxOutcome
  /-- An exception escaped from the progress loop after launch. -/
  | runtimeCrash : RemuxOutcome
  /-- `sys.exit(proc.returncode)`: the mirrored engine exit code, plus the
  destination path. -/
  | finished (exitCode : Int) (outputPath : String) : RemuxOutcome
deriving DecidableEq

/-- `remux_with_progress` (code.py lines 143–190): probe duration, derive the
destination path, build the command, run the loop over ffmpeg's output, then
mirror ffmpeg's exit code.  Returns the events that happened, the emitted
percentages, and the outcome. -/
def remux_with_progress (src : String) (env : Env) :
    List Event × List ℚ × RemuxOutcome :=
  match get_duration env.durationRaw with
  | none => ([], [], .probeFailure)
  | some total =>
    let dst := (splitext src).1 ++ ".mp4"
    let cmd := build_ffmpeg_cmd src dst env.acodec env.vcodec
    match runLoop total (-1) env.engineLines with
    | (ems, none) => ([.planBuilt cmd, .launched cmd], ems, .runtimeCrash)
    | (ems, some _) => ([.planBuilt cmd, .launched cmd], ems, .finished env.exitCode dst)

/-- The value following the first occurrence of `flag` in an argv list (how a
flag's argument is read off a command line). -/
def argAfter (flag : String) : List String → Option String
  | x :: y :: rest => if x = flag then some y else argAfter flag (y :: rest)
  | _ => none

/-- `clamp(q, lo, hi)` as the spec words it: the value forced into the
inclusive range `[lo, hi]`. -/
def clamp (q lo hi : ℚ) : ℚ :=
  min (max q lo) hi

/-! ### Helper lemmas -/

theorem argAfter_nil (flag : String) : argAfter flag [] = none := rfl

theorem argAfter_single (flag x : String) : argAfter flag [x] = none := rfl

theorem argAfter_cons_eq (flag y : String) (rest : List String) :
    argAfter flag (flag :: y :: rest) = some y := by
  simp [argAfter]

theorem argAfter_cons_ne (flag x y : String) (rest : List String) (h : x ≠ flag) :
    argAfter flag (x :: y :: rest) = argAfter flag (y :: rest) := by
  simp [argAfter, h]

/-! ### Claims about the plan builder -/

/-- C10: for every source path, destination path and pair of codec values,
the constructed engine invocation contains the overwrite flag `-y`. -/
theorem overwrite_flag_present (src dst acodec vcodec : String) :
    "-y" ∈ build_ffmpeg_cmd src dst acodec vcodec := by
  simp [build_ffmpeg_cmd]

/-- C1: the audio arguments of the built command are `-c:a alac` exactly when
the audio codec lowercases to `"dts"`, and `-c:a copy` for every other value
(including the empty string).  The hypothesis keeps a pathological source
path from shadowing the `-c:a` flag. -/
theorem audio_args_policy (src dst acodec vcodec : String) (h : src ≠ "-c:a") :
    argAfter "-c:a" (build_ffmpeg_cmd src dst acodec vcodec) =
      some (if pyLower acodec = "dts" then "alac" else "copy") := by
  by_cases hA : pyLower acodec = "dts" <;>
    simp only [build_ffmpeg_cmd, audio_args, if_pos, if_neg, hA, if_true, if_false,
      List.cons_append, List.nil_append, ite_true, ite_false] <;>
    rw [argAfter_cons_ne _ _ _ _ (by decide), argAfter_cons_ne _ _ _ _ (by decide),
      argAfter_cons_ne _ _ _ _ (by decide), argAfter_cons_ne _ _ _ _ h,
      argAfter_cons_ne _ _ _ _ (by decide), argAfter_cons_ne _ _ _ _ (by decide),
      argAfter_cons_eq]

/-- Witness for C1: a `DTS` (uppercase) source gets the lossless `alac`
transcode. -/
theorem audio_args_policy_witness :
    argAfter "-c:a" (build_ffmpeg_cmd "in.mkv" "out.mp4" "DTS" "h264") = some "alac" :=
  (audio_args_policy "in.mkv" "out.mp4" "DTS" "h264" (by decide)).trans (by decide)

/-- C6: the built command carries the compatibility tag override
`-tag:v hvc1` exactly when the video codec lowercases to `"hevc"` or
`"h265"`; otherwise no `-tag:v` argument is present.  The hypothesis keeps a
pathological source path from shadowing the `-tag:v` flag. -/
theorem tag_args_policy (src dst acodec vcodec : String) (h : src ≠ "-tag:v") :
    argAfter "-tag:v" (build_ffmpeg_cmd src dst acodec vcodec) =
      if pyLower vcodec = "hevc" ∨ pyLower vcodec = "h265" then some "hvc1" else none := by
  by_cases hV : pyLower vcodec = "hevc" ∨ pyLower vcodec = "h265" <;>
    by_cases hA : pyLower acodec = "dts" <;>
    simp only [build_ffmpeg_cmd, audio_args, tag_args, hV, hA, if_true, if_false,
      ite_true, ite_false, List.cons_append, List.nil_append] <;>
    rw [argAfter_cons_ne _ _ _ _ (by decide), argAfter_cons_ne _ _ _ _ (by decide),
      argAfter_cons_ne _ _ _ _ (by decide), argAfter_cons_ne _ _ _ _ h,
      argAfter_cons_ne _ _ _ _ (by decide), argAfter_cons_ne _ _ _ _ (by decide),
      argAfter_cons_ne _ _ _ _ (by decide), argAfter_cons_ne _ _ _ _ (by decide),
      argAfter_cons_ne _ _ _ _ (by decide), argAfter_cons_ne _ _ _ _ (by decide)] <;>
    first
      | rw [argAfter_cons_eq]
      | (rw [argAfter_cons_ne _ _ _ _ (by decide), argAfter_cons_ne _ _ _ _ (by decide),
          argAfter_cons_ne _ _ _ _ (by decide), argAfter_single])

/-- Witness for C6: an `H265` (mixed-case) source gets the `hvc1` tag
override. -/
theorem tag_args_policy_witness :
    argAfter "-tag:v" (build_ffmpeg_cmd "in.mkv" "out.mp4" "aac" "H265") = some "hvc1" :=
  (tag_args_policy "in.mkv" "out.mp4" "aac" "H265" (by decide)).trans (by decide)

/-! ### Claims about the percent computation -/

/-- C2: for a positive total duration `D`, the computed percent of an elapsed
time `E` in `[0, D]` is exactly `clamp(E/D*100, 0, 100)`, and for `E > D` it
is exactly `100`. -/
theorem percent_clamp (D E : ℚ) (hD : 0 < D) :
    (0 ≤ E → E ≤ D → computePct D E = some (clamp (E / D * 100) 0 100)) ∧
    (D < E → computePct D E = some 100) := by
  have hne : D ≠ 0 := ne_of_gt hD
  constructor
  · intro h0 _
    rw [computePct, if_neg hne, clamp, max_eq_left (by positivity)]
  · intro hDE
    rw [computePct, if_neg hne, min_eq_right]
    have h1 : (1 : ℚ) ≤ E / D := (one_le_div hD).mpr (le_of_lt hDE)
    linarith

/-- Witness for C2: with duration 10, elapsed 5 gives the clamped ratio and
elapsed 20 gives exactly 100. -/
theorem percent_clamp_witness :
    computePct 10 5 = some (clamp (5 / 10 * 100) 0 100) ∧ computePct 10 20 = some 100 :=
  ⟨(percent_clamp 10 5 (by norm_num)).1 (by norm_num) (by norm_num),
    (percent_clamp 10 20 (by norm_num)).2 (by norm_num)⟩

/-- C3 (amended): the percent computation is attempted unconditionally and
succeeds exactly when the total duration is nonzero; at duration `0` it is
the modelled `ZeroDivisionError`, not an "indeterminate progress"
degradation. -/
theorem percent_defined_iff_duration_nonzero (D E : ℚ) :
    (computePct D E).isSome ↔ D ≠ 0 := by
  by_cases h : D = 0 <;> simp [computePct, h]

/-- Counterexample to C3 as stated: with probed duration `0`, a well-formed
progress line does not degrade to indeterminate progress — the loop body
raises (division by zero), modelled as `none`. -/
theorem zero_duration_crash_cex :
    stepLine 0 (-1) "out_time_ms=1000000" = none ∧ computePct 0 1 = none := by
  constructor <;> with_unfolding_all decide

/-- C7: with total duration 10, the microsecond line `out_time_ms=5000000`
and the timestamp line `out_time=00:00:05.000000` both parse to 5 elapsed
seconds and both yield exactly 50 percent (emitted, since `last_pct` starts
at `-1`). -/
theorem five_seconds_equiv :
    parseProgressLine "out_time_ms=5000000" = .progress 5 ∧
    parseProgressLine "out_time=00:00:05.000000" = .progress 5 ∧
    stepLine 10 (-1) "out_time_ms=5000000" = some (50, some 50) ∧
    stepLine 10 (-1) "out_time=00:00:05.000000" = some (50, some 50) := by
  refine ⟨?_, ?_, ?_, ?_⟩ <;> with_unfolding_all decide

/-! ### Claims about line handling in the supervision loop -/

/-- C4 (amended): a line of engine output on which neither progress regex
matches is discarded: the loop body neither raises nor changes `last_pct`,
and emits nothing. -/
theorem unmatched_line_ignored (total : ℚ) (last : Int) (line : String)
    (h1 : searchCap usLit Char.isDigit line.data = none)
    (h2 : searchCap hmsLit isHmsChar line.data = none) :
    stepLine total last line = some (last, none) := by
  simp [stepLine, parseProgressLine, h1, h2]

/-- Witness for C4 (amended): an ffmpeg diagnostic line is ignored without
touching the state. -/
theorem unmatched_line_ignored_witness :
    stepLine 10 7 "frame=  42 fps= 30 q=-1.0 size=  1024kB" = some (7, none) :=
  unmatched_line_ignored 10 7 "frame=  42 fps= 30 q=-1.0 size=  1024kB"
    (by decide) (by decide)

/-- Counterexample to C4 as stated: the line `out_time=1:2` matches the
`out_time` pattern but is malformed (two components instead of three), and
the loop body raises a `ValueError` (modelled `none`) instead of discarding
it. -/
theorem malformed_out_time_crash_cex :
    parseProgressLine "out_time=1:2" = .malformed ∧
    stepLine 10 (-1) "out_time=1:2" = none := by
  constructor <;> with_unfolding_all decide

/-! ### Claims about the orchestration -/

/-- C8: when the probed duration string (after stripping) is not a parsable
float — the empty string or any other non-numeric output — the run fails as
a probe failure with an empty event trace: no plan is built, and the engine
is never launched. -/
theorem probe_failure_short_circuits (src : String) (env : Env)
    (h : pyFloat (pyStrip env.durationRaw) = none) :
    remux_with_progress src env = ([], [], .probeFailure) := by
  simp [remux_with_progress, get_duration, h]

/-- Witness for C8: ffprobe answering `N/A` (and hence also the empty
string) aborts before any plan or launch. -/
theorem probe_failure_short_circuits_witness :
    remux_with_progress "movie.mkv" ⟨"N/A", "aac", "h264", [], 0⟩ = ([], [], .probeFailure) ∧
    remux_with_progress "movie.mkv" ⟨"", "dts", "hevc", [], 0⟩ = ([], [], .probeFailure) :=
  ⟨probe_failure_short_circuits "movie.mkv" ⟨"N/A", "aac", "h264", [], 0⟩ (by decide),
    probe_failure_short_circuits "movie.mkv" ⟨"", "dts", "hevc", [], 0⟩ (by decide)⟩

/-- C9: whenever the supervised run terminates normally (duration parsed,
progress loop finished without an exception), the outcome mirrors the
child's exit code exactly — whatever it is, including nonzero — rather than
masking it or turning it into a crash. -/
theorem exit_code_forwarded (src : String) (env : Env) (total : ℚ) (lastF : Int)
    (h1 : get_duration env.durationRaw = some total)
    (h2 : (runLoop total (-1) env.engineLines).2 = some lastF) :
    (remux_with_progress src env).2.2 =
      .finished env.exitCode ((splitext src).1 ++ ".mp4") := by
  rcases hr : runLoop total (-1) env.engineLines with ⟨ems, fin⟩
  rw [hr] at h2
  simp only at h2
  subst h2
  simp [remux_with_progress, h1, hr]

/-- Witness for C9: an engine exiting with code 1 yields a finished outcome
with exit code 1. -/
theorem exit_code_forwarded_witness :
    (remux_with_progress "a.mkv" ⟨"10", "dts", "hevc", ["out_time_ms=5000000"], 1⟩).2.2 =
      .finished 1 "a.mp4" :=
  (exit_code_forwarded "a.mkv" ⟨"10", "dts", "hevc", ["out_time_ms=5000000"], 1⟩ 10 50
    (by with_unfolding_all decide) (by with_unfolding_all decide)).trans (by decide)

/-! ### Monotonicity machinery for the emission throttle (C5) -/

theorem parseMant_nonneg (l : List Char) (q : ℚ) (h : parseMant l = some q) : 0 ≤ q := by
  unfold parseMant at h
  split at h
  · obtain rfl : _ = q := Option.some_injective _ h
    positivity
  · exact absurd h (by simp)

theorem parseUFloat_nonneg (l : List Char) (q : ℚ) (h : parseUFloat l = some q) : 0 ≤ q := by
  unfold parseUFloat at h
  split at h
  · exact parseMant_nonneg _ _ h
  · split at h
    · split at h
      · rename_i m e hm _
        obtain rfl : _ = q := Option.some_injective _ h
        exact mul_nonneg (parseMant_nonneg _ _ hm) (le_of_lt (zpow_pos (by norm_num) e))
      · exact absurd h (by simp)
    · exact absurd h (by simp)

theorem pyFloatCore_nonneg (l : List Char) (q : ℚ)
    (hcls : ∀ c ∈ l, isHmsChar c = true) (h : pyFloatCore l = some q) : 0 ≤ q := by
  unfold pyFloatCore at h
  split at h
  · exact parseUFloat_nonneg _ _ h
  · rename_i c rest
    by_cases hm : c = '-'
    · subst hm
      have := hcls '-' (List.mem_cons_self _ _)
      simp [isHmsChar] at this
    · by_cases hp : c = '+'
      · subst hp
        have := hcls '+' (List.mem_cons_self _ _)
        simp [isHmsChar] at this
      · rw [if_neg hm, if_neg hp] at h
        exact parseUFloat_nonneg _ _ h

theorem captureAt_all (lit : List Char) (cls : Char → Bool) (l cap : List Char)
    (h : captureAt lit cls l = some cap) : ∀ c ∈ cap, cls c = true := by
  unfold captureAt at h
  split at h
  · exact absurd h (by simp)
  · split at h
    · exact absurd h (by simp)
    · intro c hc
      obtain rfl : _ = cap := Option.some_injective _ h
      exact List.mem_takeWhile_imp hc

theorem searchCap_all (lit : List Char) (cls : Char → Bool) :
    ∀ (l cap : List Char), searchCap lit cls l = some cap → ∀ c ∈ cap, cls c = true := by
  intro l
  induction l with
  | nil => intro cap h; simp [searchCap] at h
  | cons x rest ih =>
    intro cap h c hc
    rw [searchCap] at h
    cases hca : captureAt lit cls (x :: rest) with
    | some cap2 =>
      rw [hca] at h
      obtain rfl : cap2 = cap := Option.some_injective _ h
      exact captureAt_all _ _ _ _ hca c hc
    | none =>
      rw [hca] at h
      exact ih cap h c hc

theorem splitOnColon_mem :
    ∀ (l part : List Char), part ∈ splitOnColon l → ∀ c ∈ part, c ∈ l := by
  intro l
  induction l with
  | nil =>
    intro part hp c hc
    simp [splitOnColon] at hp
    subst hp
    simp at hc
  | cons x rest ih =>
    intro part hp c hc
    by_cases hx : x = ':'
    · rw [splitOnColon, if_pos hx] at hp
      rcases List.mem_cons.mp hp with h | h
      · subst h; simp at hc
      · exact List.mem_cons_of_mem _ (ih part h c hc)
    · rw [splitOnColon, if_neg hx] at hp
      cases hs : splitOnColon rest with
      | nil =>
        rw [hs] at hp
        simp at hp
        subst hp
        simp at hc
        subst hc
        exact List.mem_cons_self _ _
      | cons p ps =>
        rw [hs] at hp
        rcases List.mem_cons.mp hp with h | h
        · subst h
          rcases List.mem_cons.mp hc with h | h
          · subst h; exact List.mem_cons_self _ _
          · exact List.mem_cons_of_mem _ (ih p (by rw [hs]; exact List.mem_cons_self _ _) c h)
        · exact List.mem_cons_of_mem _ (ih part (by rw [hs]; exact List.mem_cons_of_mem _ h) c hc)

theorem parseHMS_nonneg (cap : List Char) (secs : ℚ)
    (hcls : ∀ c ∈ cap, isHmsChar c = true) (hp : parseHMS cap = some secs) : 0 ≤ secs := by
  unfold parseHMS at hp
  split at hp
  · rename_i p1 p2 p3 heq
    split at hp
    · rename_i a b c ha hb hc
      obtain rfl : _ = secs := Option.some_injective _ hp
      have m1 : p1 ∈ splitOnColon cap := by rw [heq]; simp
      have m2 : p2 ∈ splitOnColon cap := by rw [heq]; simp
      have m3 : p3 ∈ splitOnColon cap := by rw [heq]; simp
      have n1 := pyFloatCore_nonneg p1 a (fun c hc => hcls c (splitOnColon_mem _ _ m1 c hc)) ha
      have n2 := pyFloatCore_nonneg p2 b (fun c hc => hcls c (splitOnColon_mem _ _ m2 c hc)) hb
      have n3 := pyFloatCore_nonneg p3 c (fun c hc => hcls c (splitOnColon_mem _ _ m3 c hc)) hc
      have := mul_nonneg n1 (by norm_num : (0:ℚ) ≤ 3600)
      have := mul_nonneg n2 (by norm_num : (0:ℚ) ≤ 60)
      linarith
    · exact absurd hp (by simp)
  · exact absurd hp (by simp)

theorem parse_progress_nonneg (line : String) (s : ℚ)
    (h : parseProgressLine line = .progress s) : 0 ≤ s := by
  unfold parseProgressLine at h
  split at h
  · simp only [LineParse.progress.injEq] at h
    subst h
    positivity
  · split at h
    · split at h
      · rename_i o2 hus o1 cap hh o0 secs hp
        simp only [LineParse.progress.injEq] at h
        subst h
        exact parseHMS_nonneg cap _ (searchCap_all _ _ _ _ hh) hp
      · exact absurd h (by simp)
    · exact absurd h (by simp)

theorem secsOf_nonneg (lines : List String) : ∀ s ∈ secsOf lines, 0 ≤ s := by
  intro s hs
  rw [secsOf, List.mem_filterMap] at hs
  obtain ⟨l, _, hl⟩ := hs
  split at hl
  · rename_i t hp
    obtain rfl : t = s := Option.some_injective _ hl
    exact parse_progress_nonneg l _ hp
  · exact absurd hl (by simp)

theorem pyInt_nonneg (q : ℚ) (h : 0 ≤ q) : 0 ≤ pyInt q := by
  rw [pyInt, if_neg (not_lt.mpr h)]
  exact Int.floor_nonneg.mpr h

theorem pyInt_mono (q r : ℚ) (h : q ≤ r) : pyInt q ≤ pyInt r := by
  unfold pyInt
  by_cases hq : q < 0
  · by_cases hr : r < 0
    · rw [if_pos hq, if_pos hr]
      exact neg_le_neg (Int.floor_le_floor (neg_le_neg h))
    · rw [if_pos hq, if_neg hr]
      have h1 : (0 : ℤ) ≤ ⌊-q⌋ := Int.floor_nonneg.mpr (by linarith)
      have h2 : (0 : ℤ) ≤ ⌊r⌋ := Int.floor_nonneg.mpr (not_lt.mp hr)
      omega
  · by_cases hr : r < 0
    · exact absurd (lt_of_le_of_lt h hr) hq
    · rw [if_neg hq, if_neg hr]
      exact Int.floor_le_floor h

theorem computePct_eq (total s : ℚ) (h : total ≠ 0) :
    computePct total s = some (min (s / total * 100) 100) := by
  rw [computePct, if_neg h]

theorem pct_nonneg (total s : ℚ) (ht : 0 < total) (hs : 0 ≤ s) :
    0 ≤ min (s / total * 100) 100 :=
  le_min (by positivity) (by norm_num)

theorem pct_mono (total s t : ℚ) (ht : 0 < total) (h : s ≤ t) :
    min (s / total * 100) 100 ≤ min (t / total * 100) 100 := by
  gcongr

theorem secsOf_cons_progress (l : String) (ls : List String) (s : ℚ)
    (h : parseProgressLine l = .progress s) : secsOf (l :: ls) = s :: secsOf ls := by
  simp [secsOf, h]

theorem secsOf_cons_noMatch (l : String) (ls : List String)
    (h : parseProgressLine l = .noMatch) : secsOf (l :: ls) = secsOf ls := by
  simp [secsOf, h]

theorem runLoop_cons (total : ℚ) (last : Int) (l : String) (ls : List String) :
    runLoop total last (l :: ls) =
      match stepLine total last l with
      | none => ([], none)
      | some (last2, em) =>
        (em.toList ++ (runLoop total last2 ls).1, (runLoop total last2 ls).2) := by
  rw [runLoop]

theorem runLoop_neq_aux (total : ℚ) :
    ∀ (lines : List String) (last : Int),
      List.Chain' (fun a b => a ≠ b) (last :: (runLoop total last lines).1.map pyInt) := by
  intro lines
  induction lines with
  | nil => intro last; simp [runLoop]
  | cons l ls ih =>
    intro last
    cases hp : parseProgressLine l with
    | noMatch =>
      have hstep : stepLine total last l = some (last, none) := by simp [stepLine, hp]
      rw [runLoop_cons, hstep]
      simpa using ih last
    | malformed =>
      have hstep : stepLine total last l = none := by simp [stepLine, hp]
      rw [runLoop_cons, hstep]
      simp
    | progress s =>
      by_cases h0 : total = 0
      · have hstep : stepLine total last l = none := by simp [stepLine, hp, computePct, h0]
        rw [runLoop_cons, hstep]
        simp
      · have hpc := computePct_eq total s h0
        by_cases he : pyInt (min (s / total * 100) 100) = last
        · have hstep : stepLine total last l = some (last, none) := by
            simp [stepLine, hp, hpc, he]
          rw [runLoop_cons, hstep]
          simpa using ih last
        · have hstep : stepLine total last l =
              some (pyInt (min (s / total * 100) 100), some (min (s / total * 100) 100)) := by
            simp [stepLine, hp, hpc, he]
          rw [runLoop_cons, hstep]
          simp only [Option.toList_some, List.singleton_append, List.map_cons]
          exact List.chain'_cons.mpr ⟨fun hx => he hx.symm, by simpa using ih _⟩

theorem runLoop_chain_aux (total : ℚ) (ht : 0 < total) :
    ∀ (lines : List String) (last : Int),
      List.Chain' (fun a b => a ≤ b) (secsOf lines) →
      (∀ s, (secsOf lines).head? = some s → last ≤ pyInt (min (s / total * 100) 100)) →
      List.Chain' (fun a b => a < b) (last :: (runLoop total last lines).1.map pyInt) := by
  intro lines
  induction lines with
  | nil => intro last _ _; simp [runLoop]
  | cons l ls ih =>
    intro last hchain hlb
    have h0 : total ≠ 0 := ne_of_gt ht
    cases hp : parseProgressLine l with
    | noMatch =>
      rw [secsOf_cons_noMatch l ls hp] at hchain hlb
      have hstep : stepLine total last l = some (last, none) := by simp [stepLine, hp]
      rw [runLoop_cons, hstep]
      simpa using ih last hchain hlb
    | malformed =>
      have hstep : stepLine total last l = none := by simp [stepLine, hp]
      rw [runLoop_cons, hstep]
      simp
    | progress s =>
      rw [secsOf_cons_progress l ls s hp] at hchain hlb
      have hpc := computePct_eq total s h0
      have hlast : last ≤ pyInt (min (s / total * 100) 100) := hlb s rfl
      rw [List.chain'_cons'] at hchain
      obtain ⟨hhead, htail⟩ := hchain
      by_cases he : pyInt (min (s / total * 100) 100) = last
      · have hstep : stepLine total last l = some (last, none) := by
          simp [stepLine, hp, hpc, he]
        rw [runLoop_cons, hstep]
        have hlb2 : ∀ t, (secsOf ls).head? = some t →
            last ≤ pyInt (min (t / total * 100) 100) := by
          intro t htm
          calc last = pyInt (min (s / total * 100) 100) := he.symm
            _ ≤ pyInt (min (t / total * 100) 100) :=
              pyInt_mono _ _ (pct_mono total s t ht (hhead t htm))
        simpa using ih last htail hlb2
      · have hstep : stepLine total last l =
            some (pyInt (min (s / total * 100) 100), some (min (s / total * 100) 100)) := by
          simp [stepLine, hp, hpc, he]
        rw [runLoop_cons, hstep]
        have hlb2 : ∀ t, (secsOf ls).head? = some t →
            pyInt (min (s / total * 100) 100) ≤ pyInt (min (t / total * 100) 100) := by
          intro t htm
          exact pyInt_mono _ _ (pct_mono total s t ht (hhead t htm))
        simp only [Option.toList_some, List.singleton_append, List.map_cons]
        exact List.chain'_cons.mpr
          ⟨lt_of_le_of_ne hlast (fun hx => he hx.symm), by simpa using ih _ htail hlb2⟩

/-- C5 (amended): across one supervised run the same truncated percent is
never emitted twice in a row (for arbitrary engine output); and when the
parsed elapsed times are non-decreasing (as a well-behaved engine emits
them) and the duration is positive, the emitted truncated percents are
strictly increasing — in particular monotonically non-decreasing.  For
arbitrary (non-monotone) input lines monotonicity does not hold (see the
counterexample). -/
theorem emitted_percents_chain (total : ℚ) (lines : List String) :
    List.Chain' (fun a b => a ≠ b) ((runLoop total (-1) lines).1.map pyInt) ∧
    (0 < total → List.Chain' (fun a b => a ≤ b) (secsOf lines) →
      List.Chain' (fun a b => a < b) ((runLoop total (-1) lines).1.map pyInt)) := by
  constructor
  · exact (List.chain'_cons'.mp (runLoop_neq_aux total lines (-1))).2
  · intro ht hchain
    have hlb : ∀ s, (secsOf lines).head? = some s →
        (-1 : Int) ≤ pyInt (min (s / total * 100) 100) := by
      intro s hs
      have hmem : s ∈ secsOf lines := List.mem_of_mem_head? hs
      have hnn : 0 ≤ s := secsOf_nonneg lines s hmem
      have := pyInt_nonneg _ (pct_nonneg total s ht hnn)
      omega
    exact (List.chain'_cons'.mp (runLoop_chain_aux total ht lines (-1) hchain hlb)).2

/-- Witness for C5 (amended): duration 10 with elapsed times 1 s, 1.2 s, 5 s
emits truncated percents 10, 12, 50 — strictly increasing. -/
theorem emitted_percents_chain_witness :
    List.Chain' (fun a b => a < b)
      ((runLoop 10 (-1)
        ["out_time_ms=1000000", "out_time_ms=1200000", "out_time_ms=5000000"]).1.map pyInt) := by
  refine (emitted_percents_chain 10
    ["out_time_ms=1000000", "out_time_ms=1200000", "out_time_ms=5000000"]).2
    (by norm_num) ?_
  have hs : secsOf ["out_time_ms=1000000", "out_time_ms=1200000", "out_time_ms=5000000"] =
      [1, 6 / 5, 5] := by with_unfolding_all decide
  rw [hs, List.chain'_cons, List.chain'_cons]
  refine ⟨by norm_num, by norm_num, List.chain'_singleton 5⟩

/-- Counterexample to C5 as stated: if the engine's elapsed times go
backwards (5 s then 1 s, duration 10), the emitted truncated percents are
`[50, 10]`, which is not monotonically non-decreasing. -/
theorem progress_decrease_cex :
    (runLoop 10 (-1) ["out_time_ms=5000000", "out_time_ms=1000000"]).1.map pyInt = [50, 10] ∧
    ¬ List.Chain' (fun a b => a ≤ b)
        ((runLoop 10 (-1) ["out_time_ms=5000000", "out_time_ms=1000000"]).1.map pyInt) := by
  have h1 : (runLoop 10 (-1) ["out_time_ms=5000000", "out_time_ms=1000000"]).1.map pyInt =
      [50, 10] := by with_unfolding_all decide
  refine ⟨h1, ?_⟩
  rw [h1, List.chain'_cons]
  exact fun hc => absurd hc.1 (by norm_num)
